import Mathlib

/-!
Shallow embedding of `src/start_jp.py` (kinugasa-hirata/schedule2excel-jp).

The source file contains two spliced near-duplicate copies of the same
script; the complete, coherent copy is the one whose `parse_schedule_text`
body is lines 65-101 together with lines 497-555 (the second fragment's
lines 102-497 are a duplicated variant).  We embed that complete copy:
`parse_schedule_text`, `generate_filename` and `create_excel_file` of the
class `ScheduleConverter`.  Strings are modelled as `List Char` during
parsing (the parser only ever sees newline-free lines, so the regex
embeddings need not treat `'\n'` specially); machine-level concerns do not
arise.  Python exceptions (IndexError, ValueError) are modelled with
`Except String`.
-/

namespace S2E

/-! ### Character classes (Python `\s`, `\d` on `str`) -/

/-- Python regex `\s` / `str.strip` whitespace (the characters that can
actually occur here: ASCII whitespace and the common Unicode spaces,
including the full-width space U+3000 used in the input format). -/
def isPySpace (c : Char) : Bool :=
  let n := c.val.toNat
  n = 32 || (9 ≤ n && n ≤ 13) || n = 0x85 || n = 0xa0 || n = 0x1680 ||
  (0x2000 ≤ n && n ≤ 0x200a) || n = 0x2028 || n = 0x2029 || n = 0x202f ||
  n = 0x205f || n = 0x3000

/-- Python regex `\d` on `str`: decimal digits; ASCII `0-9` and the
full-width digits `０-９` (the two forms occurring in this input format). -/
def isPyDigit (c : Char) : Bool :=
  let n := c.val.toNat
  (48 ≤ n && n ≤ 57) || (0xff10 ≤ n && n ≤ 0xff19)

/-- Numeric value of a (possibly full-width) decimal digit. -/
def digVal (c : Char) : Nat :=
  let n := c.val.toNat
  if 0xff10 ≤ n then n - 0xff10 else n - 48

/-- `int(s)` on a string of decimal digits (most significant first). -/
def digitsVal (l : List Char) : Nat :=
  l.foldl (fun a c => 10 * a + digVal c) 0

/-! ### Python string helpers -/

/-- `str.strip()`: drop leading and trailing whitespace. -/
def pyStrip (l : List Char) : List Char :=
  ((l.dropWhile isPySpace).reverse.dropWhile isPySpace).reverse

/-- Helper for `text.split('\n')`. -/
def splitLinesGo : List Char → List Char → List (List Char)
  | acc, [] => [acc.reverse]
  | acc, c :: cs =>
      if c = '\n' then acc.reverse :: splitLinesGo [] cs
      else splitLinesGo (c :: acc) cs

/-- `text.split('\n')`. -/
def splitLines (l : List Char) : List (List Char) := splitLinesGo [] l

/-- Helper for `str.split(':')` (splits at every colon, keeping empties,
as Python `str.split` with an explicit separator does). -/
def splitColonGo : List Char → List Char → List (List Char)
  | acc, [] => [acc.reverse]
  | acc, c :: cs =>
      if c = ':' then acc.reverse :: splitColonGo [] cs
      else splitColonGo (c :: acc) cs

/-- `s.split(':')`. -/
def pySplitColon (l : List Char) : List (List Char) := splitColonGo [] l

/-- Maximal runs of non-whitespace characters, in order (helper for
`re.split(r'[　\s]+', s)`); the accumulator holds the current token
reversed. -/
def wordsGo : List Char → List Char → List (List Char)
  | tok, [] => if tok.isEmpty then [] else [tok.reverse]
  | tok, c :: cs =>
      if isPySpace c then
        if tok.isEmpty then wordsGo [] cs
        else tok.reverse :: wordsGo [] cs
      else wordsGo (c :: tok) cs

/-- `re.split(r'[　\s]+', s)`: the non-whitespace runs of `s`, with a
leading/trailing empty string when `s` starts/ends with whitespace, and
`[s]` when `s` contains no whitespace at all (in particular `[''] ` for
`s = ''`).  `[　\s]+` is just one-or-more whitespace since `　` (U+3000)
is itself `\s`. -/
def pySplitWs (l : List Char) : List (List Char) :=
  if l.all (fun c => !isPySpace c) then [l]
  else
    (if isPySpace (l.headD 'x') then [([] : List Char)] else []) ++
    wordsGo [] l ++
    (if isPySpace (l.getLastD 'x') then [([] : List Char)] else [])

/-- `' '.join(parts)`. -/
def joinSpace (parts : List (List Char)) : List Char :=
  List.intercalate [' '] parts

/-- The four bracket glyphs of `re.sub(r'[（）()]', '', s)`. -/
def isBracketGlyph (c : Char) : Bool :=
  c = '（' || c = '）' || c = '(' || c = ')'

/-- `re.sub(r'[（）()]', '', s)`: delete every bracket glyph. -/
def removeBrackets (l : List Char) : List Char :=
  l.filter (fun c => !isBracketGlyph c)

/-! ### Dates (Python `datetime`, day granularity) -/

structure Date where
  year : Nat
  month : Nat
  day : Nat
deriving DecidableEq

/-- Gregorian leap year, as `calendar`/`datetime` define it. -/
def isLeap (y : Nat) : Bool := (y % 4 = 0 && y % 100 ≠ 0) || y % 400 = 0

/-- Length of month `m` of year `y` (months 1-12; other values take the
31-day branch, mirroring nothing in `datetime`, which rejects them). -/
def daysInMonth (y m : Nat) : Nat :=
  if m = 2 then (if isLeap y then 29 else 28)
  else if m = 4 || m = 6 || m = 9 || m = 11 then 30
  else 31

/-- `datetime(year, month, day)` succeeds exactly on these triples
(`datetime.MINYEAR = 1`, `datetime.MAXYEAR = 9999`). -/
def isValidDate (y m d : Nat) : Bool :=
  1 ≤ y && y ≤ 9999 && 1 ≤ m && m ≤ 12 && 1 ≤ d && d ≤ daysInMonth y m

/-- The day after `dt` (`dt + timedelta(days=1)`). -/
def Date.next (dt : Date) : Date :=
  if dt.day < daysInMonth dt.year dt.month then ⟨dt.year, dt.month, dt.day + 1⟩
  else if dt.month < 12 then ⟨dt.year, dt.month + 1, 1⟩
  else ⟨dt.year + 1, 1, 1⟩

/-- `dt + timedelta(days=n)`. -/
def Date.addDays (dt : Date) : Nat → Date
  | 0 => dt
  | n + 1 => (dt.addDays n).next

/-- Days in months `1..m-1` of year `y`. -/
def daysBeforeMonth (y m : Nat) : Nat :=
  (List.range (m - 1)).foldl (fun a i => a + daysInMonth y (i + 1)) 0

/-- Proleptic Gregorian ordinal, as `datetime.toordinal()`:
`Date 1 1 1` has ordinal 1. -/
def Date.ordinal (dt : Date) : Nat :=
  365 * (dt.year - 1) + (dt.year - 1) / 4 + (dt.year - 1) / 400
    + daysBeforeMonth dt.year dt.month + dt.day - (dt.year - 1) / 100

/-- `datetime.weekday()`: 0 = Monday .. 6 = Sunday. -/
def Date.weekday (dt : Date) : Nat := (dt.ordinal + 6) % 7

/-- Lexicographic comparison of dates, matching `datetime` comparison
(all our datetimes have zero time-of-day). -/
def dateLt (a b : Date) : Bool :=
  a.year < b.year || (a.year = b.year &&
    (a.month < b.month || (a.month = b.month && a.day < b.day)))

/-- Decimal print of `n` left-padded with zeros to width `w`
(`strftime` zero padding / `str.zfill`). -/
def padNat (w n : Nat) : String :=
  let s := toString n
  if w ≤ s.length then s else String.mk (List.replicate (w - s.length) '0') ++ s

/-- `date.strftime('%Y/%m/%d')` (zero-padded month and day). -/
def fmtSlash (dt : Date) : String :=
  padNat 4 dt.year ++ "/" ++ padNat 2 dt.month ++ "/" ++ padNat 2 dt.day

/-- `date.strftime('%Y%m%d')`. -/
def fmtCompact (dt : Date) : String :=
  padNat 4 dt.year ++ padNat 2 dt.month ++ padNat 2 dt.day

/-- `day_names = ['月','火','水','木','金','土','日']`, indexed by
`weekday()`. -/
def dayNames : List String := ["月", "火", "水", "木", "金", "土", "日"]

def dayName (dt : Date) : String := dayNames.getD dt.weekday "?"

/-! ### Line classifiers (the three `re.match` patterns of the parser) -/

/-- The weekday glyphs `[日月火水木金土]`. -/
def isWeekdayCh (c : Char) : Bool :=
  c = '日' || c = '月' || c = '火' || c = '水' || c = '木' || c = '金' || c = '土'

/-- Matches the tail `\([日月火水木金土]\)$` (ASCII parentheses). -/
def parenWeek : List Char → Bool
  | [c1, w, c2] => c1 = '(' && isWeekdayCh w && c2 = ')'
  | _ => false

/-- `re.match(r'^(\d{1,2})\([日月火水木金土]\)$', line)`: the day number
when the whole line is a date header such as `23(月)`.  Greedy `\d{1,2}`
with backtracking: two digits are tried first. -/
def isDateHeader (l : List Char) : Option Nat :=
  match l with
  | c1 :: rest =>
      if isPyDigit c1 then
        match rest with
        | c2 :: rest2 =>
            if isPyDigit c2 && parenWeek rest2 then some (digVal c1 * 10 + digVal c2)
            else if parenWeek rest then some (digVal c1)
            else none
        | [] => none
      else none
  | [] => none

/-- Opening glyph of `[（(]`. -/
def isOpenB (c : Char) : Bool := c = '（' || c = '('

/-- Closing glyph of `[）)]`. -/
def isCloseB (c : Char) : Bool := c = '）' || c = ')'

/-- `re.match(r'^[（(](.+)[）)]$', line)`: the interior when the line
starts with either opening glyph, ends with either closing glyph (the
families need not match!) and has at least one character in between. -/
def parenMatch : List Char → Option (List Char)
  | [] => none
  | c :: rest =>
      if isOpenB c then
        match rest.reverse with
        | [] => none
        | last :: revMid =>
            if isCloseB last && !revMid.isEmpty then some revMid.reverse else none
      else none

/-- Minutes-and-remainder part of the `TimedEntry` regex: after the colon,
`(\d{2})\s+(.+)$` requires exactly two digits, then a whitespace character
and at least one further character.  Returns `(hour digits, minute digits,
raw suffix after the minutes)`; the suffix still carries its leading
whitespace (the caller strips it, which coincides with the regex's greedy
`\s+` plus `.strip()`). -/
def afterColon (hs : List Char) : List Char → Option (List Char × List Char × List Char)
  | m1 :: m2 :: rest3 =>
      if isPyDigit m1 && isPyDigit m2 then
        match rest3 with
        | s :: tail => if isPySpace s && !tail.isEmpty then some (hs, [m1, m2], rest3) else none
        | [] => none
      else none
  | _ => none

/-- `re.match(r'^(\d{1,2}):(\d{2})\s+(.+)$', line)`.  Greedy `\d{1,2}`:
two digits then `:` is tried first; else one digit then `:`. -/
def timeMatch (l : List Char) : Option (List Char × List Char × List Char) :=
  match l with
  | c1 :: rest =>
      if isPyDigit c1 then
        match rest with
        | c2 :: rest2 =>
            if isPyDigit c2 then
              match rest2 with
              | ':' :: r3 => afterColon [c1, c2] r3
              | _ => none
            else if c2 = ':' then afterColon [c1] rest2
            else none
        | [] => none
      else none
  | [] => none

/-! ### The location/activity disambiguation (source lines 518-539) -/

/-- Python `needle in hay` substring containment. -/
def containsSub (needle hay : List Char) : Bool :=
  hay.tails.any (fun t => needle.isPrefixOf t)

/-- The fixed keyword set `['打合せ','会議','見学','参加','食事','手配','対応']`. -/
def keywords : List (List Char) :=
  ["打合せ".toList, "会議".toList, "見学".toList, "参加".toList,
   "食事".toList, "手配".toList, "対応".toList]

/-- Splits the stripped remainder of a timed line into
`(location, activity)`, exactly as source lines 518-539: the full-width
bracket test, the fixed phrase `社用車帰宅`, the whitespace split, and the
keyword reclassification. -/
def splitLocActivity (at_ : List Char) : String × String :=
  if at_.contains '（' && at_.contains '）' then
    ("", String.mk (removeBrackets at_))
  else if at_ = "社用車帰宅".toList then ("社用車帰宅", "")
  else
    let parts := pySplitWs at_
    let location := parts.headD []
    let activity := if parts.length > 1 then joinSpace parts.tail else []
    if activity.isEmpty && !location.isEmpty
        && keywords.any (fun k => containsSub k location) then
      ("", String.mk location)
    else (String.mk location, String.mk activity)

/-! ### Schedule records and the scanning loop -/

/-- One element of the `schedule` list built by `parse_schedule_text`
(the dict with keys `date`, `full_date`, `time`, `location`, `activity`,
`has_all_data`). -/
structure Entry where
  date : String
  full_date : Date
  time : String
  location : String
  activity : String
  has_all_data : Bool
deriving DecidableEq

/-- The main scanning loop of `parse_schedule_text` (source lines 87-97
and 497-553), threading the `current_date` context.  An invalid day in a
date-header line raises `ValueError` from `datetime(year, month, day)`,
aborting the scan. -/
def scanLines (year month : Nat) :
    Option (String × Date) → List (List Char) → Except String (List Entry)
  | _, [] => .ok []
  | ctx, line :: rest =>
      match isDateHeader line with
      | some day =>
          if isValidDate year month day then
            scanLines year month (some (String.mk line, ⟨year, month, day⟩)) rest
          else .error "ValueError: day is out of range for month"
      | none =>
          match ctx with
          | some (dl, fd) =>
              match parenMatch line with
              | some interior =>
                  (Entry.mk dl fd "" "" (String.mk (pyStrip interior)) false :: ·) <$>
                    scanLines year month ctx rest
              | none =>
                  match timeMatch line with
                  | some (hs, ms, rawRest) =>
                      let time := String.mk (hs ++ ':' :: ms)
                      let at_ := pyStrip rawRest
                      let (location, activity) := splitLocActivity at_
                      let has := !(time = "") && (!(location = "") || !(activity = ""))
                      (Entry.mk dl fd time location activity has :: ·) <$>
                        scanLines year month ctx rest
                  | none => scanLines year month ctx rest
          | none => scanLines year month none rest

/-- `re.search(r'(\d{4})年(\d{1,2})月', ...)` tried at one position. -/
def matchYMAt (l : List Char) : Option (Nat × Nat) :=
  match l with
  | a :: b :: c :: d :: '年' :: rest =>
      if isPyDigit a && isPyDigit b && isPyDigit c && isPyDigit d then
        match rest with
        | m1 :: rest2 =>
            if isPyDigit m1 then
              match rest2 with
              | m2 :: rest3 =>
                  if isPyDigit m2 then
                    match rest3 with
                    | '月' :: _ => some (digitsVal [a, b, c, d], digVal m1 * 10 + digVal m2)
                    | _ => none
                  else if m2 = '月' then some (digitsVal [a, b, c, d], digVal m1)
                  else none
              | [] => none
            else none
        | [] => none
      else none
  | _ => none

/-- `re.search(r'(\d{4})年(\d{1,2})月', line)`: leftmost match. -/
def searchYM : List Char → Option (Nat × Nat)
  | [] => none
  | c :: rest =>
      match matchYMAt (c :: rest) with
      | some r => some r
      | none => searchYM rest

/-- The stripped, non-empty lines of the input
(`[line.strip() for line in text.split('\n') if line.strip()]`). -/
def parsedLines (text : String) : List (List Char) :=
  ((splitLines text.toList).map pyStrip).filter (· ≠ [])

/-- `ScheduleConverter.parse_schedule_text` (the complete copy: source
lines 65-101 and 497-555).  `now` is `(datetime.now().year,
datetime.now().month)`, the fallback when the first line has no
`YYYY年M月` header.  On empty/whitespace-only input, `lines[0]` raises
`IndexError`. -/
def parse_schedule_text (now : Nat × Nat) (text : String) : Except String (List Entry) :=
  match parsedLines text with
  | [] => .error "IndexError: list index out of range"
  | l0 :: _ =>
      let ym := match searchYM l0 with
        | some r => r
        | none => now
      scanLines ym.1 ym.2 none ((parsedLines text).dropWhile (fun l => (isDateHeader l).isNone))

/-! ### `generate_filename` (source lines 557-575) -/

/-- Match `(\d{1,2})` immediately followed by `stop` (greedy: two digits
tried first), returning the digit group and the rest. -/
def matchNum12 (stop : Char) : List Char → Option (List Char × List Char)
  | m1 :: rest2 =>
      if isPyDigit m1 then
        match rest2 with
        | m2 :: rest3 =>
            if isPyDigit m2 then
              match rest3 with
              | c :: rest4 => if c = stop then some ([m1, m2], rest4) else none
              | [] => none
            else if m2 = stop then some ([m1], rest3)
            else none
        | [] => none
      else none
  | [] => none

/-- Match `(\d{4})年(\d{1,2})月(\d{1,2})日\([日月火水木金土]\)` at one
position; returns the year, month and day digit groups and the rest. -/
def matchFullDateAt (l : List Char) :
    Option (List Char × List Char × List Char × List Char) :=
  match l with
  | a :: b :: c :: d :: '年' :: rest =>
      if isPyDigit a && isPyDigit b && isPyDigit c && isPyDigit d then do
        let (mStr, r1) ← matchNum12 '月' rest
        let (dStr, r2) ← matchNum12 '日' r1
        match r2 with
        | '(' :: w :: ')' :: r3 =>
            if isWeekdayCh w then some ([a, b, c, d], mStr, dStr, r3) else none
        | _ => none
      else none
  | _ => none

/-- Match the whole date-range pattern
`...日\(W\)\s*～\s*(\d{4})年...日\(W\)` at one position. -/
def matchRangeAt (l : List Char) :
    Option (List Char × List Char × List Char × List Char × List Char × List Char) := do
  let (y1, m1, d1, r1) ← matchFullDateAt l
  match r1.dropWhile isPySpace with
  | '～' :: r3 =>
      let (y2, m2, d2, _) ← matchFullDateAt (r3.dropWhile isPySpace)
      some (y1, m1, d1, y2, m2, d2)
  | _ => none

/-- `re.search` of the date-range pattern: leftmost match. -/
def searchRange : List Char → Option (List Char × List Char × List Char × List Char × List Char × List Char)
  | [] => none
  | c :: rest =>
      match matchRangeAt (c :: rest) with
      | some r => some r
      | none => searchRange rest

/-- `str.zfill(2)`. -/
def zfill2 (s : List Char) : String :=
  if 2 ≤ s.length then String.mk s
  else String.mk (List.replicate (2 - s.length) '0' ++ s)

/-- `ScheduleConverter.generate_filename`; `today` stands for
`datetime.now()`'s date, used only by the fallback branch. -/
def generate_filename (today : Date) (text : String) : String :=
  match searchRange text.toList with
  | some (y1, m1, d1, y2, m2, d2) =>
      String.mk y1 ++ zfill2 m1 ++ zfill2 d1 ++ "to" ++
        String.mk y2 ++ zfill2 m2 ++ zfill2 d2 ++ ".xlsx"
  | none => "weekly_schedule_" ++ fmtCompact today ++ ".xlsx"

/-! ### `create_excel_file` (source lines 577-667) -/

/-- A spreadsheet cell value: a string, or the time-of-day datetime
`datetime(1899, 12, 30, h, m)` written into column 2. -/
inductive CellValue
  | s (v : String)
  | t (hour minute : Nat)
deriving DecidableEq

/-- One `ws.cell(row=..., column=..., value=...)` write. -/
abbrev Instr := Nat × Nat × CellValue

/-- `int(s)` on a piece of the time string: succeeds on non-empty
all-digit strings. -/
def pyInt (l : List Char) : Except String Nat :=
  if !l.isEmpty && l.all isPyDigit then .ok (digitsVal l)
  else .error "ValueError: invalid literal for int()"

/-- `datetime(1899, 12, 30, int(parts[0]), int(parts[1]))` where
`parts = entry['time'].split(':')`: raises `IndexError` when there is no
colon and `ValueError` when hour/minute are out of range. -/
def toTimeCell (t : String) : Except String CellValue :=
  match pySplitColon t.toList with
  | hs :: ms :: _ => do
      let h ← pyInt hs
      let m ← pyInt ms
      if h ≤ 23 && m ≤ 59 then .ok (.t h m)
      else .error "ValueError: hour/minute must be in range"
  | _ => .error "IndexError: list index out of range"

/-- `re.sub(r'[（）()]', '', s) if s else ''`. -/
def cleanB (s : String) : String :=
  if s = "" then "" else String.mk (removeBrackets s.toList)

/-- The three cell writes (columns 2-4) for one entry at one row. -/
def entryInstrs (row : Nat) (e : Entry) : Except String (List Instr) :=
  if e.time ≠ "" then do
    let v ← toTimeCell e.time
    .ok [(row, 2, v), (row, 3, .s (cleanB e.location)), (row, 4, .s (cleanB e.activity))]
  else
    .ok [(row, 2, .s ""), (row, 3, .s (cleanB e.location)), (row, 4, .s (cleanB e.activity))]

/-- The per-day entry loop (source lines 639-661): place entries at
consecutive rows from `startRow`, breaking once `row_index` reaches
`startRow + 6` (the break fires after the write and the increment). -/
def placeEntries (startRow : Nat) : Nat → List Entry → Except String (List Instr)
  | _, [] => .ok []
  | row, e :: es => do
      let c ← entryInstrs row e
      if row + 1 ≥ startRow + 6 then .ok c
      else do
        let t ← placeEntries startRow (row + 1) es
        .ok (c ++ t)

/-- Unbounded row-by-row placement: every entry of the list, one row
each, no 6-row cap.  Used to state what the capped loop computes. -/
def placeAll : Nat → List Entry → Except String (List Instr)
  | _, [] => .ok []
  | row, e :: es => do
      let c ← entryInstrs row e
      let t ← placeAll (row + 1) es
      .ok (c ++ t)

/-! ### The per-day sort (source line 607) -/

/-- Lexicographic string comparison on code points, as Python compares
`str` values. -/
def lexLe : List Char → List Char → Bool
  | [], _ => true
  | _ :: _, [] => false
  | a :: as, b :: bs =>
      if a.val.toNat < b.val.toNat then true
      else if b.val.toNat < a.val.toNat then false
      else lexLe as bs

/-- The sort key `(not x.get('has_all_data', True), x['time'] or '99:99')`. -/
def sortKey (e : Entry) : Bool × List Char :=
  (!e.has_all_data, if e.time = "" then "99:99".toList else e.time.toList)

/-- Python tuple `<=` on the sort keys (`False < True` on booleans,
string comparison on the second component). -/
def keyLe : Bool × List Char → Bool × List Char → Bool
  | (b1, s1), (b2, s2) => if b1 = b2 then lexLe s1 s2 else (!b1 && b2)

def pyLe (a b : Entry) : Bool := keyLe (sortKey a) (sortKey b)

def pyLeP (a b : Entry) : Prop := pyLe a b = true

instance : DecidableRel pyLeP := fun x y => inferInstanceAs (Decidable (pyLe x y = true))

/-- `list.sort(key=...)`: a stable ascending sort.  Inserting into the
already-sorted suffix with the non-strict `pyLeP` is stable. -/
def sortEntries (l : List Entry) : List Entry := List.insertionSort pyLeP l

/-- The records grouped under one date key (`schedule_by_date`, built per
encounter order, looked up by the formatted date). -/
def bucketOf (sched : List Entry) (dt : Date) : List Entry :=
  sched.filter (fun e => decide (e.full_date = dt))

/-- The column-1 date-label writes for one 6-row block (source lines
625-636). -/
def col1Instrs (dt : Date) (row : Nat) : List Instr :=
  [(row, 1, .s ("(" ++ dayName dt ++ ")")),
   (row + 1, 1, .s (fmtSlash dt)),
   (row + 2, 1, .s ""), (row + 3, 1, .s ""), (row + 4, 1, .s ""), (row + 5, 1, .s "")]

/-- All writes of day index `d` (column-1 labels, then the day's sorted
entries). -/
def dayInstrs (sched : List Entry) (start : Date) (d : Nat) : Except String (List Instr) :=
  let dt := start.addDays d
  let row := 7 + 6 * d
  do
    let es ← placeEntries row row (sortEntries (bucketOf sched dt))
    .ok (col1Instrs dt row ++ es)

/-- `min(schedule_data, key=lambda x: x['full_date'])['full_date']`
(Python `min` keeps the earliest of tied elements). -/
def startDate (e : Entry) (rest : List Entry) : Date :=
  (rest.foldl (fun acc x => if dateLt x.full_date acc.full_date then x else acc) e).full_date

/-- `ScheduleConverter.create_excel_file`, abstracted to the list of cell
writes it performs on the template (the openpyxl workbook itself is the
external collaborator).  An empty schedule writes nothing. -/
def create_excel_file (sched : List Entry) : Except String (List Instr) :=
  match sched with
  | [] => .ok []
  | e :: rest => do
      let blocks ← (List.range 7).mapM (dayInstrs (e :: rest) (startDate e rest))
      .ok blocks.flatten

/-- The writes of a successful `create_excel_file` run (empty on error). -/
def instrsOf (sched : List Entry) : List Instr :=
  match create_excel_file sched with
  | .ok l => l
  | .error _ => []

/-- Does `entry['time']` render without an exception? -/
def timeOk (t : String) : Bool :=
  (t = "") || (match toTimeCell t with | .ok _ => true | .error _ => false)

/-! ### Spec-side definitions used to compare against claims -/

/-- Modelled from the claims' words, for comparison with the code's
classifier: the line is wrapped in a MATCHING pair of bracket glyphs
(both from the CJK family, or both from the ASCII family), with nothing
before or after the pair and a non-empty interior. -/
def claimBracketOnly (l : List Char) : Bool :=
  ((l.head? = some '（' && l.getLast? = some '）') ||
   (l.head? = some '(' && l.getLast? = some ')')) && decide (3 ≤ l.length)

/-- Modelled from the claims' words, for comparison with the code's sort
key: a NUMERIC time key (minutes since midnight), with a sentinel larger
than any real time for timeless records. -/
def claimTimeKey (t : String) : Nat :=
  match toTimeCell t with
  | .ok (.t h m) => h * 60 + m
  | _ => 100000

/-! ## Helper lemmas -/

theorem isPyDigit_not_space {c : Char} (h : isPyDigit c = true) : isPySpace c = false := by
  simp only [isPyDigit, isPySpace] at *
  simp only [Bool.or_eq_true, Bool.and_eq_true, decide_eq_true_eq] at h
  simp only [Bool.or_eq_false_iff, Bool.and_eq_false_iff, decide_eq_false_iff_not]
  omega

theorem decide_eq_ne_of_digit {c x : Char} (h : isPyDigit c = true)
    (hx : isPyDigit x = false) : decide (c = x) = false := by
  rcases Decidable.em (c = x) with he | he
  · subst he; rw [h] at hx; cases hx
  · simp [he]

theorem not_digit_open : isPyDigit '（' = false := by decide

theorem not_digit_ascii_open : isPyDigit '(' = false := by decide

theorem not_digit_colon : isPyDigit ':' = false := by decide

theorem isOpenB_not_digit {c : Char} (h : isOpenB c = true) : isPyDigit c = false := by
  simp only [isOpenB, Bool.or_eq_true, decide_eq_true_eq] at h
  rcases h with h | h <;> subst h <;> decide

/-- `dropWhile` leaves a list whose head fails the predicate unchanged. -/
theorem dropWhile_eq_self_of_head {p : Char → Bool} {l : List Char}
    (h : ∀ c, l.head? = some c → p c = false) : l.dropWhile p = l := by
  cases l with
  | nil => rfl
  | cons a as => simp [List.dropWhile_cons, h a rfl]

/-- `dropWhile` empties a list on which the predicate always holds. -/
theorem dropWhile_eq_nil_of_all {p : List Char → Bool} {l : List (List Char)}
    (h : ∀ x ∈ l, p x = true) : l.dropWhile p = [] := by
  induction l with
  | nil => rfl
  | cons a as ih =>
      rw [List.dropWhile_cons, if_pos (h a (by simp))]
      exact ih fun x hx => h x (by simp [hx])

theorem pyStrip_cons_space {c : Char} {l : List Char} (h : isPySpace c = true) :
    pyStrip (c :: l) = pyStrip l := by
  simp [pyStrip, List.dropWhile_cons, h]

/-- A list with non-whitespace first and last characters strips to itself. -/
theorem pyStrip_eq_self {l : List Char}
    (h1 : ∀ c, l.head? = some c → isPySpace c = false)
    (h2 : ∀ c, l.getLast? = some c → isPySpace c = false) : pyStrip l = l := by
  unfold pyStrip
  rw [dropWhile_eq_self_of_head h1]
  rw [dropWhile_eq_self_of_head (by
    intro c hc
    exact h2 c (by rwa [List.head?_reverse] at hc))]
  exact l.reverse_reverse

/-! ### One-step unfolding lemmas for the scanning loop -/

theorem scanLines_date {y m d : Nat} {line : List Char} {rest : List (List Char)}
    {ctx : Option (String × Date)}
    (hd : isDateHeader line = some d) (hv : isValidDate y m d = true) :
    scanLines y m ctx (line :: rest) =
      scanLines y m (some (String.mk line, ⟨y, m, d⟩)) rest := by
  simp only [scanLines, hd, hv, if_true]

theorem scanLines_date_bad {y m d : Nat} {line : List Char} {rest : List (List Char)}
    {ctx : Option (String × Date)}
    (hd : isDateHeader line = some d) (hv : isValidDate y m d = false) :
    scanLines y m ctx (line :: rest) =
      .error "ValueError: day is out of range for month" := by
  simp only [scanLines, hd, hv, Bool.false_eq_true, if_false]

theorem scanLines_paren {y m : Nat} {dl : String} {fd : Date} {line interior : List Char}
    {rest : List (List Char)}
    (hd : isDateHeader line = none) (hp : parenMatch line = some interior) :
    scanLines y m (some (dl, fd)) (line :: rest) =
      (Entry.mk dl fd "" "" (String.mk (pyStrip interior)) false :: ·) <$>
        scanLines y m (some (dl, fd)) rest := by
  simp only [scanLines, hd, hp]

theorem scanLines_time (y m : Nat) {dl : String} {fd : Date}
    {line hs ms rawRest : List Char} {rest : List (List Char)}
    (hd : isDateHeader line = none) (hp : parenMatch line = none)
    (ht : timeMatch line = some (hs, ms, rawRest)) :
    scanLines y m (some (dl, fd)) (line :: rest) =
      (let time := String.mk (hs ++ ':' :: ms)
       let lca := splitLocActivity (pyStrip rawRest)
       (Entry.mk dl fd time lca.1 lca.2
          (!(time = "") && (!(lca.1 = "") || !(lca.2 = ""))) :: ·) <$>
        scanLines y m (some (dl, fd)) rest) := by
  simp only [scanLines, hd, hp, ht]

theorem scanLines_skip {y m : Nat} {line : List Char} {rest : List (List Char)}
    {ctx : Option (String × Date)}
    (hd : isDateHeader line = none) (hp : parenMatch line = none)
    (ht : timeMatch line = none) :
    scanLines y m ctx (line :: rest) = scanLines y m ctx rest := by
  cases ctx with
  | none => simp only [scanLines, hd]
  | some c => obtain ⟨dl, fd⟩ := c; simp only [scanLines, hd, hp, ht]

/-! ## Claim C4 — empty input -/

/-- Claim C4 counterexample: on empty input text the parser does NOT
return an empty record sequence — `lines[0]` raises `IndexError`
(source line 71), so the claim fails at `text = ""`. -/
theorem C4_counterexample :
    parse_schedule_text (2025, 6) "" = .error "IndexError: list index out of range" := rfl

/-- Claim C4 (amended): for any text whose stripped non-empty line list
is non-empty and contains no DateHeader line, the parse returns the empty
record sequence without error; empty or whitespace-only text instead
raises `IndexError` at the header extraction. -/
theorem C4_amended (now : Nat × Nat) (text : String)
    (h1 : parsedLines text ≠ [])
    (h2 : ∀ l ∈ parsedLines text, isDateHeader l = none) :
    parse_schedule_text now text = .ok [] := by
  unfold parse_schedule_text
  cases hl : parsedLines text with
  | nil => exact absurd hl h1
  | cons l0 rest =>
      have hall : ∀ l ∈ parsedLines text, (fun l => (isDateHeader l).isNone) l = true := by
        intro l hml
        simp [h2 l hml]
      rw [dropWhile_eq_nil_of_all (by rw [hl] at hall; exact hall)]
      rfl

theorem C4_amended_witness : parse_schedule_text (2025, 6) "氏名\n衣笠修平" = .ok [] :=
  C4_amended (2025, 6) "氏名\n衣笠修平" (by decide) (by decide)

/-! ## Claim C8 — the offset-1 date format -/

/-- Claim C8 (code bug evidence): the spec and the script's own sidebar
documentation (`行2: 2025/6/23`) promise the unpadded format `YYYY/M/D`,
but the code writes `date.strftime('%Y/%m/%d')` (source line 633), which
zero-pads: for 2025-06-23 the cell at row offset 1, column 1 receives
`"2025/06/23"`, not `"2025/6/23"`. -/
theorem C8_thm :
    (8, 1, CellValue.s "2025/06/23") ∈
        instrsOf [⟨"23(月)", ⟨2025, 6, 23⟩, "08:50", "川口本部", "", true⟩]
      ∧ (8, 1, CellValue.s "2025/6/23") ∉
        instrsOf [⟨"23(月)", ⟨2025, 6, 23⟩, "08:50", "川口本部", "", true⟩]
      ∧ ("2025/06/23" : String) ≠ "2025/6/23" := by
  refine ⟨by decide, by decide, by decide⟩

/-! ## Claim C1 — per-day ordering and truncation (counterexample part) -/

/-- Claim C1 counterexample: the code sorts each bucket by the LITERAL
time string (`x['time'] or '99:99'`, source line 607), not by time value.
With two complete records at `9:00` and `10:00` on the same day,
`"10:00" < "9:00"` as strings, so the block's first row (row 7) receives
the 10:00 record and row 8 the 9:00 record — the opposite of the claim's
"time ascending" order (the numeric key of 9:00 is smaller). -/
theorem C1_counterexample :
    (7, 2, CellValue.t 10 0) ∈
        instrsOf [⟨"23(月)", ⟨2025, 6, 23⟩, "9:00", "A", "", true⟩,
                  ⟨"23(月)", ⟨2025, 6, 23⟩, "10:00", "B", "", true⟩]
      ∧ (7, 2, CellValue.t 9 0) ∉
        instrsOf [⟨"23(月)", ⟨2025, 6, 23⟩, "9:00", "A", "", true⟩,
                  ⟨"23(月)", ⟨2025, 6, 23⟩, "10:00", "B", "", true⟩]
      ∧ claimTimeKey "9:00" < claimTimeKey "10:00" :=
  ⟨by decide, by decide, by decide⟩

/-! ## Claim C5 — bracket-only lines (counterexample part) -/

/-- Claim C5 counterexample: the pattern `^[（(](.+)[）)]$` (source
line 101) does not require the two bracket glyphs to come from the same
family.  The line `（A)` — full-width opener, ASCII closer — is not
wrapped in a matching pair, yet the code classifies it as a bracket-only
activity and emits a record, refuting the claim's "iff". -/
theorem C5_counterexample :
    scanLines 2025 6 (some ("23(月)", ⟨2025, 6, 23⟩)) ["（A)".toList] =
      .ok [⟨"23(月)", ⟨2025, 6, 23⟩, "", "", "A", false⟩]
      ∧ claimBracketOnly "（A)".toList = false :=
  ⟨rfl, by decide⟩

/-! ## Claim C3 — bracketed remainder of a timed line -/

/-- Claim C3 counterexample: the remainder branch (source lines 522-525)
tests only the full-width pair `（`/`）`.  For `13:00 (ABC)` (ASCII
brackets, no reclassification keyword) the whitespace-split path runs
instead: the record gets `location = "(ABC)"` and `activity = ""`,
not the claimed `location = ""`, `activity = "ABC"`. -/
theorem C3_counterexample :
    scanLines 2025 6 (some ("27(金)", ⟨2025, 6, 27⟩)) ["13:00 (ABC)".toList] =
      .ok [⟨"27(金)", ⟨2025, 6, 27⟩, "13:00", "(ABC)", "", true⟩]
      ∧ ("(ABC)" : String) ≠ "" ∧ ("" : String) ≠ "ABC" :=
  ⟨rfl, by decide, by decide⟩

/-- Claim C3 (amended): only when the remainder contains both full-width
glyphs `（` and `）` does the bracket branch fire, and then the activity
is the ENTIRE remainder with all bracket glyphs (both families) removed —
text outside the pair is retained — and the location is empty; a
remainder whose brackets are only ASCII takes the whitespace-split path. -/
theorem C3_amended (l : List Char) (h1 : l.contains '（' = true)
    (h2 : l.contains '）' = true) :
    splitLocActivity l = ("", String.mk (removeBrackets l)) := by
  unfold splitLocActivity
  rw [h1, h2]
  rfl

theorem C3_amended_witness :
    ("本部（会議）".toList.contains '（' = true)
      ∧ splitLocActivity "本部（会議）".toList =
          ("", String.mk (removeBrackets "本部（会議）".toList)) :=
  ⟨by decide, C3_amended "本部（会議）".toList (by decide) (by decide)⟩

/-! ## Claim C6 — invalid day aborts, unrecognized lines skip -/

/-- Claim C6: a DateHeader line whose day number is invalid for the
active year/month raises the `ValueError` of `datetime(year, month, day)`
(source line 95), aborting the whole scan; every line matching none of
the three known shapes is skipped with no record and no error. -/
theorem C6_thm :
    (∀ (y m d : Nat) (line : List Char) (rest : List (List Char))
        (ctx : Option (String × Date)),
        isDateHeader line = some d → isValidDate y m d = false →
        scanLines y m ctx (line :: rest) =
          .error "ValueError: day is out of range for month")
    ∧ (∀ (y m : Nat) (line : List Char) (rest : List (List Char))
        (ctx : Option (String × Date)),
        isDateHeader line = none → parenMatch line = none → timeMatch line = none →
        scanLines y m ctx (line :: rest) = scanLines y m ctx rest) :=
  ⟨fun _ _ _ _ _ _ hd hv => scanLines_date_bad hd hv,
   fun _ _ _ _ _ hd hp ht => scanLines_skip hd hp ht⟩

theorem C6_witness :
    scanLines 2025 6 none ["32(月)".toList, "08:50 川口本部".toList] =
        .error "ValueError: day is out of range for month"
      ∧ scanLines 2025 6 none ["氏名".toList] = scanLines 2025 6 none [] :=
  ⟨C6_thm.1 2025 6 32 "32(月)".toList ["08:50 川口本部".toList] none (by decide) (by decide),
   C6_thm.2 2025 6 "氏名".toList [] none (by decide) (by decide) (by decide)⟩

/-! ## Claim C5 — characterization of the bracket-only classifier -/

/-- What `^[（(](.+)[）)]$` accepts: any opener from either family, any
closer from either family, non-empty interior. -/
theorem parenMatch_iff (l m : List Char) :
    parenMatch l = some m ↔
      ∃ o c, l = o :: m ++ [c] ∧ isOpenB o = true ∧ isCloseB c = true ∧ m ≠ [] := by
  cases l with
  | nil =>
      constructor
      · intro h; cases h
      · rintro ⟨o, c, h, -⟩; cases h
  | cons a rest =>
      by_cases ho : isOpenB a = true
      · cases hr : rest.reverse with
        | nil =>
            have hrest : rest = [] := by
              have := congrArg List.reverse hr
              simpa using this
            subst hrest
            constructor
            · intro h
              simp only [parenMatch, ho, if_true] at h
              cases h
            · rintro ⟨o, c, h, -, -, hm⟩
              exfalso
              have := congrArg List.length h
              simp [List.length_append] at this
        | cons last revMid =>
            have hrest : rest = revMid.reverse ++ [last] := by
              have := congrArg List.reverse hr
              simpa using this
            have hred : parenMatch (a :: rest) =
                (if isCloseB last && !revMid.isEmpty then some revMid.reverse else none) := by
              simp only [parenMatch, ho, if_true, hr]
            rw [hred]
            by_cases hcond : (isCloseB last && !revMid.isEmpty) = true
            · rw [if_pos hcond]
              obtain ⟨hc, hm⟩ := Bool.and_eq_true_iff.mp hcond
              have hm' : revMid ≠ [] := by
                intro h; subst h; simp at hm
              constructor
              · intro h
                injection h with h
                refine ⟨a, last, ?_, ho, hc, ?_⟩
                · rw [hrest, ← h]; rfl
                · rw [← h]
                  intro hh
                  exact hm' (by simpa using congrArg List.reverse hh)
              · rintro ⟨o, c, heq, -, hc', hmne⟩
                rw [hrest] at heq
                injection heq with heqh heqt
                obtain ⟨h1, h2⟩ := List.append_inj' heqt rfl
                rw [h1]
            · rw [if_neg hcond]
              constructor
              · intro h; cases h
              · rintro ⟨o, c, heq, -, hc', hmne⟩
                exfalso
                rw [hrest] at heq
                injection heq with heqh heqt
                obtain ⟨h1, h2⟩ := List.append_inj' heqt rfl
                injection h2 with h2
                apply hcond
                rw [h2, hc']
                simp only [Bool.true_and]
                have hne : revMid ≠ [] := by
                  intro hh
                  exact hmne (by rw [← h1, hh]; rfl)
                simp [List.isEmpty_iff, hne]
      · have ho' : isOpenB a = false := by simpa using ho
        constructor
        · intro h
          simp only [parenMatch, ho'] at h
          simp at h
        · rintro ⟨o, c, heq, hoo, -, -⟩
          exfalso
          injection heq with heqh heqt
          rw [heqh, hoo] at ho'
          cases ho'

/-- A line accepted by the bracket pattern cannot be a date header (its
first character is a bracket, not a digit). -/
theorem isDateHeader_of_parenMatch {l i : List Char} (h : parenMatch l = some i) :
    isDateHeader l = none := by
  obtain ⟨o, c, heq, ho, -, -⟩ := (parenMatch_iff l i).mp h
  subst heq
  simp [isDateHeader, isOpenB_not_digit ho]

/-- Claim C5 (amended): a line is classified as a bracket-only activity
iff its first character is an opening glyph of either family and its last
a closing glyph of either family — the families need not match — with a
non-empty interior; with a current date set, such a line yields one record
with `is_complete = false`, empty time and location, and activity equal to
the interior with surrounding whitespace stripped. -/
theorem C5_amended :
    (∀ l m, parenMatch l = some m ↔
        ∃ o c, l = o :: m ++ [c] ∧ isOpenB o = true ∧ isCloseB c = true ∧ m ≠ [])
    ∧ (∀ (y mo : Nat) (dl : String) (fd : Date) (line interior : List Char)
        (rest : List (List Char)),
        parenMatch line = some interior →
        scanLines y mo (some (dl, fd)) (line :: rest) =
          (Entry.mk dl fd "" "" (String.mk (pyStrip interior)) false :: ·) <$>
            scanLines y mo (some (dl, fd)) rest) :=
  ⟨parenMatch_iff,
   fun _ _ _ _ _ _ _ hp => scanLines_paren (isDateHeader_of_parenMatch hp) hp⟩

theorem C5_amended_witness :
    scanLines 2025 6 (some ("23(月)", ⟨2025, 6, 23⟩)) ["（ サンプル発送 ）".toList] =
      (Entry.mk "23(月)" ⟨2025, 6, 23⟩ "" ""
          (String.mk (pyStrip " サンプル発送 ".toList)) false :: ·) <$>
        scanLines 2025 6 (some ("23(月)", ⟨2025, 6, 23⟩)) [] :=
  C5_amended.2 2025 6 "23(月)" ⟨2025, 6, 23⟩ "（ サンプル発送 ）".toList
    " サンプル発送 ".toList [] (by decide)

/-! ### Symbolic evaluation helpers for TimedEntry lines -/

theorem parenWeek_cons_ne {c : Char} (rest : List Char) (h : c ≠ '(') :
    parenWeek (c :: rest) = false := by
  cases rest with
  | nil => rfl
  | cons w rest2 =>
      cases rest2 with
      | nil => rfl
      | cons x rest3 =>
          cases rest3 with
          | nil => simp [parenWeek, h]
          | cons y rest4 => rfl

theorem digit_not_openB {c : Char} (h : isPyDigit c = true) : isOpenB c = false := by
  simp only [isOpenB, Bool.or_eq_false_iff]
  exact ⟨decide_eq_ne_of_digit h not_digit_open, decide_eq_ne_of_digit h not_digit_ascii_open⟩

theorem parenMatch_digit_head {c : Char} (rest : List Char) (h : isPyDigit c = true) :
    parenMatch (c :: rest) = none := by
  simp [parenMatch, digit_not_openB h]

theorem digit_ne_colon {c : Char} (h : isPyDigit c = true) : c ≠ ':' :=
  of_decide_eq_false (decide_eq_ne_of_digit h not_digit_colon)

theorem isDateHeader_time_one {h1 : Char} (rest : List Char) (hd : isPyDigit h1 = true) :
    isDateHeader (h1 :: ':' :: rest) = none := by
  simp [isDateHeader, hd, not_digit_colon, parenWeek_cons_ne _ (by decide : ':' ≠ '(')]

theorem isDateHeader_time_two {h1 h2 : Char} (rest : List Char)
    (hd1 : isPyDigit h1 = true) (hd2 : isPyDigit h2 = true) :
    isDateHeader (h1 :: h2 :: ':' :: rest) = none := by
  have hne : h2 ≠ '(' := of_decide_eq_false (decide_eq_ne_of_digit hd2 not_digit_ascii_open)
  simp [isDateHeader, hd1, hd2, parenWeek_cons_ne _ (by decide : ':' ≠ '('),
    parenWeek_cons_ne _ hne]

theorem timeMatch_one {h1 m1 m2 : Char} (sp : Char) (tail : List Char)
    (hd1 : isPyDigit h1 = true) (hm1 : isPyDigit m1 = true) (hm2 : isPyDigit m2 = true)
    (hsp : isPySpace sp = true) (ht : tail ≠ []) :
    timeMatch (h1 :: ':' :: m1 :: m2 :: sp :: tail) = some ([h1], [m1, m2], sp :: tail) := by
  have hte : tail.isEmpty = false := by simpa [List.isEmpty_iff] using ht
  simp [timeMatch, afterColon, hd1, hm1, hm2, hsp, not_digit_colon, hte]

theorem timeMatch_two {h1 h2 m1 m2 : Char} (sp : Char) (tail : List Char)
    (hd1 : isPyDigit h1 = true) (hd2 : isPyDigit h2 = true)
    (hm1 : isPyDigit m1 = true) (hm2 : isPyDigit m2 = true)
    (hsp : isPySpace sp = true) (ht : tail ≠ []) :
    timeMatch (h1 :: h2 :: ':' :: m1 :: m2 :: sp :: tail) =
      some ([h1, h2], [m1, m2], sp :: tail) := by
  have hte : tail.isEmpty = false := by simpa [List.isEmpty_iff] using ht
  simp [timeMatch, afterColon, hd1, hd2, hm1, hm2, hsp, hte]

/-! ### Symbolic splitting of the remainder -/

theorem wordsGo_append (w tok rest : List Char)
    (hw : ∀ c ∈ w, isPySpace c = false) :
    wordsGo tok (w ++ rest) = wordsGo (w.reverse ++ tok) rest := by
  induction w generalizing tok with
  | nil => simp
  | cons c w' ih =>
      have hc : isPySpace c = false := hw c (by simp)
      rw [List.cons_append, wordsGo, hc]
      simp only [Bool.false_eq_true, if_false]
      rw [ih (c :: tok) fun x hx => hw x (by simp [hx])]
      simp [List.append_assoc]

theorem wordsGo_end (tok : List Char) :
    wordsGo tok [] = if tok.isEmpty then [] else [tok.reverse] := rfl

theorem words_single {A : List Char} (hA : A ≠ [])
    (hAs : ∀ c ∈ A, isPySpace c = false) : wordsGo [] A = [A] := by
  have := wordsGo_append A [] [] hAs
  simp only [List.append_nil] at this
  rw [this, wordsGo_end]
  have : A.reverse.isEmpty = false := by
    simp [List.isEmpty_iff, hA]
  simp [this]

theorem words_two {L A : List Char} {sp : Char} (hL : L ≠ []) (hA : A ≠ [])
    (hsp : isPySpace sp = true)
    (hLs : ∀ c ∈ L, isPySpace c = false) (hAs : ∀ c ∈ A, isPySpace c = false) :
    wordsGo [] (L ++ sp :: A) = [L, A] := by
  rw [wordsGo_append L [] (sp :: A) hLs]
  simp only [List.append_nil]
  rw [wordsGo, hsp]
  have hrev : L.reverse.isEmpty = false := by simp [List.isEmpty_iff, hL]
  simp only [hrev, Bool.false_eq_true, if_false, if_true]
  rw [words_single hA hAs]
  simp

theorem splitColonGo_append (w acc rest : List Char)
    (hw : ∀ c ∈ w, c ≠ ':') :
    splitColonGo acc (w ++ rest) = splitColonGo (w.reverse ++ acc) rest := by
  induction w generalizing acc with
  | nil => simp
  | cons c w' ih =>
      rw [List.cons_append, splitColonGo, if_neg (hw c (by simp))]
      rw [ih (c :: acc) fun x hx => hw x (by simp [hx])]
      simp [List.append_assoc]

theorem pySplitColon_pair {hs ms : List Char}
    (hh : ∀ c ∈ hs, c ≠ ':') (hm : ∀ c ∈ ms, c ≠ ':') :
    pySplitColon (hs ++ ':' :: ms) = [hs, ms] := by
  unfold pySplitColon
  rw [splitColonGo_append hs [] (':' :: ms) hh]
  rw [splitColonGo, if_pos rfl]
  have h2 : splitColonGo [] ms = [ms] := by
    have h3 := splitColonGo_append ms [] [] hm
    simp only [List.append_nil] at h3
    rw [h3]
    simp [splitColonGo]
  rw [h2]
  simp


theorem space_ne_of {c x : Char} (h : isPySpace c = true) (hx : isPySpace x = false) :
    decide (c = x) = false := by
  rcases Decidable.em (c = x) with he | he
  · subst he; rw [h] at hx; cases hx
  · simp [he]

theorem space_not_bracket {c : Char} (h : isPySpace c = true) : isBracketGlyph c = false := by
  simp only [isBracketGlyph, Bool.or_eq_false_iff]
  exact ⟨⟨⟨space_ne_of h (by decide), space_ne_of h (by decide)⟩,
    space_ne_of h (by decide)⟩, space_ne_of h (by decide)⟩

theorem contains_eq_false_of {a : Char} {l : List Char} (h : ∀ c ∈ l, c ≠ a) :
    l.contains a = false := by
  induction l with
  | nil => rfl
  | cons b bs ih =>
      rw [List.contains_cons]
      have hb : (a == b) = false := by
        have := h b (by simp)
        simp [beq_iff_eq]
        exact fun hh => this hh.symm
      rw [hb, Bool.false_or]
      exact ih fun c hc => h c (by simp [hc])

theorem getLast?_append_right {l r : List Char} (h : r ≠ []) :
    (l ++ r).getLast? = r.getLast? := List.getLast?_append_of_ne_nil l h

theorem remainder_getLast_nospace (L : List Char) {A : List Char} {sp : Char} (hA : A ≠ [])
    (hAs : ∀ c ∈ A, isPySpace c = false) :
    ∀ c, (L ++ sp :: A).getLast? = some c → isPySpace c = false := by
  intro c hc
  rw [show L ++ sp :: A = (L ++ [sp]) ++ A by simp, getLast?_append_right hA,
    List.getLast?_eq_getLast_of_ne_nil hA] at hc
  injection hc with hc
  exact hAs c (hc ▸ A.getLast_mem hA)

theorem pyStrip_remainder {L A : List Char} {sp sp2 : Char}
    (hL : L ≠ []) (hA : A ≠ []) (hsp : isPySpace sp = true)
    (hLs : ∀ c ∈ L, isPySpace c = false) (hAs : ∀ c ∈ A, isPySpace c = false) :
    pyStrip (sp :: (L ++ sp2 :: A)) = L ++ sp2 :: A := by
  rw [pyStrip_cons_space hsp]
  apply pyStrip_eq_self
  · intro c hc
    obtain ⟨lc, L', rfl⟩ := List.exists_cons_of_ne_nil hL
    simp only [List.cons_append, List.head?_cons, Option.some.injEq] at hc
    exact hc ▸ hLs lc (by simp)
  · exact remainder_getLast_nospace L hA hAs

theorem pySplitWs_two {L A : List Char} {sp : Char}
    (hL : L ≠ []) (hA : A ≠ []) (hsp : isPySpace sp = true)
    (hLs : ∀ c ∈ L, isPySpace c = false) (hAs : ∀ c ∈ A, isPySpace c = false) :
    pySplitWs (L ++ sp :: A) = [L, A] := by
  unfold pySplitWs
  have hall : (L ++ sp :: A).all (fun c => !isPySpace c) = false := by
    rw [List.all_append]
    have : (sp :: A).all (fun c => !isPySpace c) = false := by
      rw [List.all_cons, hsp]
      rfl
    rw [this, Bool.and_false]
  rw [hall]
  simp only [Bool.false_eq_true, if_false]
  obtain ⟨lc, L', rfl⟩ := List.exists_cons_of_ne_nil hL
  have hhead : ((lc :: L') ++ sp :: A).headD 'x' = lc := rfl
  rw [hhead, hLs lc (by simp)]
  have hlast : isPySpace (((lc :: L') ++ sp :: A).getLastD 'x') = false := by
    rw [List.getLastD_eq_getLast?]
    cases hgl : ((lc :: L') ++ sp :: A).getLast? with
    | none =>
        exfalso
        rw [List.getLast?_eq_none_iff] at hgl
        cases hgl
    | some c =>
        have := remainder_getLast_nospace (lc :: L') hA hAs c hgl
        simpa using this
  rw [hlast]
  rw [words_two hL hA hsp hLs hAs]
  simp

theorem splitLocActivity_two {L A : List Char} {sp : Char}
    (hL : L ≠ []) (hA : A ≠ []) (hsp : isPySpace sp = true)
    (hLs : ∀ c ∈ L, isPySpace c = false) (hAs : ∀ c ∈ A, isPySpace c = false)
    (hLb : ∀ c ∈ L, isBracketGlyph c = false) (hAb : ∀ c ∈ A, isBracketGlyph c = false) :
    splitLocActivity (L ++ sp :: A) = (String.mk L, String.mk A) := by
  have hnb : ∀ c ∈ L ++ sp :: A, isBracketGlyph c = false := by
    intro c hc
    rcases List.mem_append.mp hc with h | h
    · exact hLb c h
    · rcases List.mem_cons.mp h with h | h
      · exact h ▸ space_not_bracket hsp
      · exact hAb c h
  have hne : ∀ (x : Char), isBracketGlyph x = true → ∀ c ∈ L ++ sp :: A, c ≠ x := by
    intro x hx c hc he
    have hcb := hnb c hc
    rw [he, hx] at hcb
    cases hcb
  unfold splitLocActivity
  rw [contains_eq_false_of (hne '（' (by decide)), Bool.false_and]
  simp only [Bool.false_eq_true, if_false]
  rw [if_neg (by
    intro he
    have hmem : sp ∈ "社用車帰宅".toList := he ▸ (by simp : sp ∈ L ++ sp :: A)
    have : ∀ c ∈ "社用車帰宅".toList, isPySpace c = false := by decide
    rw [this sp hmem] at hsp
    cases hsp)]
  rw [pySplitWs_two hL hA hsp hLs hAs]
  simp only [List.headD_cons, List.length_cons, List.length_nil]
  have hjoin : joinSpace [A] = A := by
    simp [joinSpace, List.intercalate]
  simp only [List.tail_cons, hjoin]
  have hAe : A.isEmpty = false := by simp [List.isEmpty_iff, hA]
  simp [hAe]


theorem mk_ne_empty {c : Char} {cs : List Char} : String.mk (c :: cs) ≠ "" := by
  intro h
  have h2 := congrArg String.data h
  simp at h2

theorem C2_scan_time {y mo : Nat} {dl : String} {fd : Date} {hs ms L A : List Char}
    (hhs : hs.length = 1 ∨ hs.length = 2) (hhsd : ∀ c ∈ hs, isPyDigit c = true)
    (hms : ms.length = 2) (hmsd : ∀ c ∈ ms, isPyDigit c = true)
    (hL : L ≠ []) (hA : A ≠ [])
    (hLs : ∀ c ∈ L, isPySpace c = false) (hAs : ∀ c ∈ A, isPySpace c = false)
    (hLb : ∀ c ∈ L, isBracketGlyph c = false) (hAb : ∀ c ∈ A, isBracketGlyph c = false) :
    scanLines y mo (some (dl, fd)) [hs ++ ':' :: ms ++ ' ' :: (L ++ ' ' :: A)] =
      .ok [⟨dl, fd, String.mk (hs ++ ':' :: ms), String.mk L, String.mk A, true⟩] := by
  obtain ⟨m1, m2, rfl⟩ := List.length_eq_two.mp hms
  have hm1 : isPyDigit m1 = true := hmsd m1 (by simp)
  have hm2 : isPyDigit m2 = true := hmsd m2 (by simp)
  have hRne : L ++ ' ' :: A ≠ [] := by
    cases L with
    | nil => exact absurd rfl hL
    | cons a b => simp
  have hstrip : pyStrip (' ' :: (L ++ ' ' :: A)) = L ++ ' ' :: A :=
    pyStrip_remainder hL hA (by decide) hLs hAs
  have hsplit : splitLocActivity (L ++ ' ' :: A) = (String.mk L, String.mk A) :=
    splitLocActivity_two hL hA (by decide) hLs hAs hLb hAb
  obtain ⟨lc, L', rfl⟩ := List.exists_cons_of_ne_nil hL
  have hLne : String.mk (lc :: L') ≠ "" := mk_ne_empty
  simp only [List.cons_append] at hstrip hsplit hRne
  rcases hhs with h1 | h2
  · obtain ⟨h1c, rfl⟩ := List.length_eq_one.mp h1
    have hh1 : isPyDigit h1c = true := hhsd h1c (by simp)
    simp only [List.cons_append, List.nil_append]
    rw [scanLines_time y mo
      (isDateHeader_time_one (m1 :: m2 :: ' ' :: lc :: (L' ++ ' ' :: A)) hh1)
      (parenMatch_digit_head (':' :: m1 :: m2 :: ' ' :: lc :: (L' ++ ' ' :: A)) hh1)
      (timeMatch_one ' ' (lc :: (L' ++ ' ' :: A)) hh1 hm1 hm2 (by decide) hRne)]
    simp only [hstrip, hsplit, scanLines]
    have htne : String.mk (h1c :: ':' :: m1 :: m2 :: []) ≠ "" := mk_ne_empty
    simp [Except.map, decide_eq_false htne, decide_eq_false hLne]
  · obtain ⟨h1c, h2c, rfl⟩ := List.length_eq_two.mp h2
    have hh1 : isPyDigit h1c = true := hhsd h1c (by simp)
    have hh2 : isPyDigit h2c = true := hhsd h2c (by simp)
    simp only [List.cons_append, List.nil_append]
    rw [scanLines_time y mo
      (isDateHeader_time_two (m1 :: m2 :: ' ' :: lc :: (L' ++ ' ' :: A)) hh1 hh2)
      (parenMatch_digit_head (h2c :: ':' :: m1 :: m2 :: ' ' :: lc :: (L' ++ ' ' :: A)) hh1)
      (timeMatch_two ' ' (lc :: (L' ++ ' ' :: A)) hh1 hh2 hm1 hm2 (by decide) hRne)]
    simp only [hstrip, hsplit, scanLines]
    have htne : String.mk (h1c :: h2c :: ':' :: m1 :: m2 :: []) ≠ "" := mk_ne_empty
    simp [Except.map, decide_eq_false htne, decide_eq_false hLne]


/-- Claim C2: a TimedEntry line `HH:MM LOC ACT` (1-2 digit hour, 2-digit
minute, whitespace-separated location and activity tokens, no bracket
glyphs anywhere), scanned while a current date is set, emits exactly one
record with the literal time string `HH:MM` (which splits back into the
pair `(HH, MM)`), `location = LOC`, `activity = ACT` and
`is_complete = true`.  No keyword condition on LOC is needed: the
reclassification step only runs when the activity came out empty. -/
theorem C2_thm (y mo : Nat) (dl : String) (fd : Date) (hs ms L A : List Char)
    (hhs : hs.length = 1 ∨ hs.length = 2) (hhsd : ∀ c ∈ hs, isPyDigit c = true)
    (hms : ms.length = 2) (hmsd : ∀ c ∈ ms, isPyDigit c = true)
    (hL : L ≠ []) (hA : A ≠ [])
    (hLs : ∀ c ∈ L, isPySpace c = false) (hAs : ∀ c ∈ A, isPySpace c = false)
    (hLb : ∀ c ∈ L, isBracketGlyph c = false) (hAb : ∀ c ∈ A, isBracketGlyph c = false) :
    scanLines y mo (some (dl, fd)) [hs ++ ':' :: ms ++ ' ' :: (L ++ ' ' :: A)] =
      .ok [⟨dl, fd, String.mk (hs ++ ':' :: ms), String.mk L, String.mk A, true⟩]
    ∧ pySplitColon (hs ++ ':' :: ms) = [hs, ms] :=
  ⟨C2_scan_time hhs hhsd hms hmsd hL hA hLs hAs hLb hAb,
   pySplitColon_pair (fun c hc => digit_ne_colon (hhsd c hc))
     (fun c hc => digit_ne_colon (hmsd c hc))⟩

theorem C2_witness :
    scanLines 2025 6 (some ("23(月)", ⟨2025, 6, 23⟩))
        ["08".toList ++ ':' :: "50".toList ++ ' ' :: ("川口本部".toList ++ ' ' :: "試作".toList)] =
      .ok [⟨"23(月)", ⟨2025, 6, 23⟩, String.mk ("08".toList ++ ':' :: "50".toList),
        String.mk "川口本部".toList, String.mk "試作".toList, true⟩]
    ∧ pySplitColon ("08".toList ++ ':' :: "50".toList) = ["08".toList, "50".toList] :=
  C2_thm 2025 6 "23(月)" ⟨2025, 6, 23⟩ "08".toList "50".toList "川口本部".toList "試作".toList
    (by decide) (by decide) (by decide) (by decide) (by decide) (by decide)
    (by decide) (by decide) (by decide) (by decide)

/-! ## Claim C10 — no time range validation; render fails -/

theorem C10_scan (y mo : Nat) (dl : String) (fd : Date) (hs ms R : List Char)
    (hhs : hs.length = 1 ∨ hs.length = 2) (hhsd : ∀ c ∈ hs, isPyDigit c = true)
    (hms : ms.length = 2) (hmsd : ∀ c ∈ ms, isPyDigit c = true) (hR : R ≠ []) :
    ∃ loc act b, scanLines y mo (some (dl, fd)) [hs ++ ':' :: ms ++ ' ' :: R] =
      .ok [⟨dl, fd, String.mk (hs ++ ':' :: ms), loc, act, b⟩] := by
  obtain ⟨m1, m2, rfl⟩ := List.length_eq_two.mp hms
  have hm1 : isPyDigit m1 = true := hmsd m1 (by simp)
  have hm2 : isPyDigit m2 = true := hmsd m2 (by simp)
  rcases hhs with h1 | h2
  · obtain ⟨h1c, rfl⟩ := List.length_eq_one.mp h1
    have hh1 : isPyDigit h1c = true := hhsd h1c (by simp)
    simp only [List.cons_append, List.nil_append]
    rw [scanLines_time y mo
      (isDateHeader_time_one (m1 :: m2 :: ' ' :: R) hh1)
      (parenMatch_digit_head (':' :: m1 :: m2 :: ' ' :: R) hh1)
      (timeMatch_one ' ' R hh1 hm1 hm2 (by decide) hR)]
    exact ⟨_, _, _, rfl⟩
  · obtain ⟨h1c, h2c, rfl⟩ := List.length_eq_two.mp h2
    have hh1 : isPyDigit h1c = true := hhsd h1c (by simp)
    have hh2 : isPyDigit h2c = true := hhsd h2c (by simp)
    simp only [List.cons_append, List.nil_append]
    rw [scanLines_time y mo
      (isDateHeader_time_two (m1 :: m2 :: ' ' :: R) hh1 hh2)
      (parenMatch_digit_head (h2c :: ':' :: m1 :: m2 :: ' ' :: R) hh1)
      (timeMatch_two ' ' R hh1 hh2 hm1 hm2 (by decide) hR)]
    exact ⟨_, _, _, rfl⟩

theorem C10_render (dl : String) (fd : Date) (hs ms : List Char) (loc act : String) (b : Bool)
    (hhsne : hs ≠ []) (hhsd : ∀ c ∈ hs, isPyDigit c = true)
    (hmsne : ms ≠ []) (hmsd : ∀ c ∈ ms, isPyDigit c = true)
    (hrange : 24 ≤ digitsVal hs ∨ 60 ≤ digitsVal ms) :
    ∃ msg, create_excel_file [⟨dl, fd, String.mk (hs ++ ':' :: ms), loc, act, b⟩] =
      .error msg := by
  obtain ⟨hc, hs', rfl⟩ := List.exists_cons_of_ne_nil hhsne
  refine ⟨"ValueError: hour/minute must be in range", ?_⟩
  have htne : String.mk (hc :: (hs' ++ ':' :: ms)) ≠ "" := mk_ne_empty
  have hsplit : pySplitColon (hc :: (hs' ++ ':' :: ms)) = [hc :: hs', ms] :=
    pySplitColon_pair (fun c hcm => digit_ne_colon (hhsd c hcm))
      (fun c hcm => digit_ne_colon (hmsd c hcm))
  have hint1 : pyInt (hc :: hs') = .ok (digitsVal (hc :: hs')) := by
    unfold pyInt
    rw [if_pos]
    rw [Bool.and_eq_true]
    exact ⟨rfl, by rw [List.all_eq_true]; exact hhsd⟩
  have hint2 : pyInt ms = .ok (digitsVal ms) := by
    unfold pyInt
    rw [if_pos]
    rw [Bool.and_eq_true]
    exact ⟨by simpa [List.isEmpty_iff] using hmsne, by rw [List.all_eq_true]; exact hmsd⟩
  have hcond : (digitsVal (hc :: hs') ≤ 23 && digitsVal ms ≤ 59) = false := by
    rcases hrange with h | h
    · have hd : decide (digitsVal (hc :: hs') ≤ 23) = false := decide_eq_false (by omega)
      simp [hd]
    · have hd : decide (digitsVal ms ≤ 59) = false := decide_eq_false (by omega)
      simp [hd]
  have hcell : toTimeCell (String.mk (hc :: (hs' ++ ':' :: ms))) =
      .error "ValueError: hour/minute must be in range" := by
    unfold toTimeCell
    rw [show (String.mk (hc :: (hs' ++ ':' :: ms))).toList = hc :: (hs' ++ ':' :: ms) from rfl]
    rw [hsplit]
    show (do
        let h ← pyInt (hc :: hs')
        let m ← pyInt ms
        if h ≤ 23 && m ≤ 59 then Except.ok (CellValue.t h m)
        else Except.error "ValueError: hour/minute must be in range") =
      Except.error "ValueError: hour/minute must be in range"
    rw [hint1, hint2]
    show (if (digitsVal (hc :: hs') ≤ 23 && digitsVal ms ≤ 59) = true
        then Except.ok (CellValue.t (digitsVal (hc :: hs')) (digitsVal ms))
        else Except.error "ValueError: hour/minute must be in range") =
      Except.error "ValueError: hour/minute must be in range"
    rw [hcond]
    rfl
  have hentry : entryInstrs 7 ⟨dl, fd, String.mk (hc :: (hs' ++ ':' :: ms)), loc, act, b⟩ =
      .error "ValueError: hour/minute must be in range" := by
    unfold entryInstrs
    rw [if_pos htne]
    show (do
        let v ← toTimeCell (String.mk (hc :: (hs' ++ ':' :: ms)))
        Except.ok [(7, 2, v), (7, 3, CellValue.s (cleanB loc)), (7, 4, CellValue.s (cleanB act))]) =
      Except.error "ValueError: hour/minute must be in range"
    rw [hcell]
    rfl
  have hday : dayInstrs [⟨dl, fd, String.mk (hc :: (hs' ++ ':' :: ms)), loc, act, b⟩] fd 0 =
      .error "ValueError: hour/minute must be in range" := by
    unfold dayInstrs
    have hbucket : bucketOf [⟨dl, fd, String.mk (hc :: (hs' ++ ':' :: ms)), loc, act, b⟩]
        (fd.addDays 0) =
        [⟨dl, fd, String.mk (hc :: (hs' ++ ':' :: ms)), loc, act, b⟩] := by
      simp [bucketOf, Date.addDays]
    show (do
        let es ← placeEntries (7 + 6 * 0) (7 + 6 * 0)
          (sortEntries (bucketOf [⟨dl, fd, String.mk (hc :: (hs' ++ ':' :: ms)), loc, act, b⟩]
            (fd.addDays 0)))
        Except.ok (col1Instrs (fd.addDays 0) (7 + 6 * 0) ++ es)) =
      Except.error "ValueError: hour/minute must be in range"
    rw [hbucket]
    rw [show sortEntries [⟨dl, fd, String.mk (hc :: (hs' ++ ':' :: ms)), loc, act, b⟩] =
        [⟨dl, fd, String.mk (hc :: (hs' ++ ':' :: ms)), loc, act, b⟩] from rfl]
    rw [show (7 + 6 * 0) = 7 from rfl]
    unfold placeEntries
    rw [hentry]
    rfl
  show (do
      let blocks ← (List.range 7).mapM
        (dayInstrs [⟨dl, fd, String.mk (hc :: (hs' ++ ':' :: ms)), loc, act, b⟩]
          (startDate ⟨dl, fd, String.mk (hc :: (hs' ++ ':' :: ms)), loc, act, b⟩ []))
      Except.ok blocks.flatten) =
    Except.error "ValueError: hour/minute must be in range"
  rw [show startDate ⟨dl, fd, String.mk (hc :: (hs' ++ ':' :: ms)), loc, act, b⟩ [] = fd from rfl]
  rw [show List.range 7 = 0 :: [1, 2, 3, 4, 5, 6] from rfl]
  rw [List.mapM_cons]
  rw [hday]
  rfl


/-- Claim C10: the TimedEntry regex performs no range check on hour or
minute — any `\d{1,2}:\d{2}` prefix is accepted and the record carries the
literal time string — and rendering a schedule containing such a record
fails: `datetime(1899, 12, 30, hour, minute)` (source line 644) raises
`ValueError` when the record's time is converted to a cell value. -/
theorem C10_thm :
    (∀ (y mo : Nat) (dl : String) (fd : Date) (hs ms R : List Char),
        hs.length = 1 ∨ hs.length = 2 → (∀ c ∈ hs, isPyDigit c = true) →
        ms.length = 2 → (∀ c ∈ ms, isPyDigit c = true) → R ≠ [] →
        ∃ loc act b, scanLines y mo (some (dl, fd)) [hs ++ ':' :: ms ++ ' ' :: R] =
          .ok [⟨dl, fd, String.mk (hs ++ ':' :: ms), loc, act, b⟩])
    ∧ (∀ (dl : String) (fd : Date) (hs ms : List Char) (loc act : String) (b : Bool),
        hs ≠ [] → (∀ c ∈ hs, isPyDigit c = true) →
        ms ≠ [] → (∀ c ∈ ms, isPyDigit c = true) →
        24 ≤ digitsVal hs ∨ 60 ≤ digitsVal ms →
        ∃ msg, create_excel_file [⟨dl, fd, String.mk (hs ++ ':' :: ms), loc, act, b⟩] =
          .error msg) :=
  ⟨fun y mo dl fd hs ms R h1 h2 h3 h4 h5 => C10_scan y mo dl fd hs ms R h1 h2 h3 h4 h5,
   fun dl fd hs ms loc act b h1 h2 h3 h4 h5 => C10_render dl fd hs ms loc act b h1 h2 h3 h4 h5⟩

theorem C10_thm_witness :
    (∃ loc act b, scanLines 2025 6 (some ("23(月)", ⟨2025, 6, 23⟩))
        ["25".toList ++ ':' :: "99".toList ++ ' ' :: "川口本部".toList] =
      .ok [⟨"23(月)", ⟨2025, 6, 23⟩, String.mk ("25".toList ++ ':' :: "99".toList),
        loc, act, b⟩])
    ∧ (∃ msg, create_excel_file [⟨"23(月)", ⟨2025, 6, 23⟩,
        String.mk ("25".toList ++ ':' :: "99".toList), "川口本部", "", true⟩] =
      .error msg) :=
  ⟨C10_thm.1 2025 6 "23(月)" ⟨2025, 6, 23⟩ "25".toList "99".toList "川口本部".toList
      (by decide) (by decide) (by decide) (by decide) (by decide),
   C10_thm.2 "23(月)" ⟨2025, 6, 23⟩ "25".toList "99".toList "川口本部" "" true
      (by decide) (by decide) (by decide) (by decide) (by decide)⟩

/-! ## Claim C9 — generate_filename -/

theorem matchNum12_len {stop : Char} {l g r : List Char}
    (h : matchNum12 stop l = some (g, r)) : g.length = 1 ∨ g.length = 2 := by
  cases l with
  | nil => cases h
  | cons m1 rest2 =>
      by_cases h1 : isPyDigit m1 = true
      · simp only [matchNum12, h1, if_true] at h
        cases rest2 with
        | nil => cases h
        | cons m2 rest3 =>
            by_cases h2 : isPyDigit m2 = true
            · simp only [h2, if_true] at h
              cases rest3 with
              | nil => cases h
              | cons cc rest4 =>
                  replace h : (if cc = stop then some ([m1, m2], rest4) else none) =
                    some (g, r) := h
                  by_cases h3 : cc = stop
                  · rw [if_pos h3] at h
                    simp only [Option.some.injEq, Prod.mk.injEq] at h
                    rw [← h.1]
                    right; rfl
                  · rw [if_neg h3] at h; cases h
            · have h2' : isPyDigit m2 = false := by simpa using h2
              simp only [h2', Bool.false_eq_true, if_false] at h
              by_cases h4 : m2 = stop
              · rw [if_pos h4] at h
                simp only [Option.some.injEq, Prod.mk.injEq] at h
                rw [← h.1]
                left; rfl
              · rw [if_neg h4] at h; cases h
      · have h1' : isPyDigit m1 = false := by simpa using h1
        simp only [matchNum12, h1', Bool.false_eq_true, if_false] at h
        cases h

theorem matchFullDateAt_len {l y m d r : List Char}
    (h : matchFullDateAt l = some (y, m, d, r)) :
    y.length = 4 ∧ (m.length = 1 ∨ m.length = 2) ∧ (d.length = 1 ∨ d.length = 2) := by
  unfold matchFullDateAt at h
  split at h
  case h_2 => cases h
  case h_1 a b c e rest =>
    split at h
    · cases hm : matchNum12 '月' rest with
      | none => rw [hm] at h; cases h
      | some v =>
          obtain ⟨mStr, r1⟩ := v
          rw [hm] at h
          simp only [Option.bind_eq_bind, Option.some_bind] at h
          cases hd : matchNum12 '日' r1 with
          | none => rw [hd] at h; cases h
          | some w =>
              obtain ⟨dStr, r2⟩ := w
              rw [hd] at h
              simp only [Option.some_bind] at h
              split at h
              case h_2 => cases h
              case h_1 =>
                split at h
                · simp only [Option.some.injEq, Prod.mk.injEq] at h
                  obtain ⟨hy, hm2, hd2, -⟩ := h
                  refine ⟨?_, ?_, ?_⟩
                  · rw [← hy]; rfl
                  · rw [← hm2]; exact matchNum12_len hm
                  · rw [← hd2]; exact matchNum12_len hd
                · cases h
    · cases h

theorem matchRangeAt_len {l y1 m1 d1 y2 m2 d2 : List Char}
    (h : matchRangeAt l = some (y1, m1, d1, y2, m2, d2)) :
    y1.length = 4 ∧ (m1.length = 1 ∨ m1.length = 2) ∧ (d1.length = 1 ∨ d1.length = 2)
    ∧ y2.length = 4 ∧ (m2.length = 1 ∨ m2.length = 2) ∧ (d2.length = 1 ∨ d2.length = 2) := by
  unfold matchRangeAt at h
  cases h1 : matchFullDateAt l with
  | none => rw [h1] at h; cases h
  | some v =>
      obtain ⟨a1, b1, c1, r1⟩ := v
      rw [h1] at h
      simp only [Option.bind_eq_bind, Option.some_bind] at h
      split at h
      case h_2 => cases h
      case h_1 =>
        cases h2 : matchFullDateAt _ with
        | none => rw [h2] at h; cases h
        | some w =>
            obtain ⟨a2, b2, c2, r4⟩ := w
            rw [h2] at h
            simp only [Option.some_bind, Option.some.injEq, Prod.mk.injEq] at h
            obtain ⟨ha1, hb1, hc1, ha2, hb2, hc2⟩ := h
            obtain ⟨p1, p2, p3⟩ := matchFullDateAt_len h1
            obtain ⟨q1, q2, q3⟩ := matchFullDateAt_len h2
            rw [← ha1, ← hb1, ← hc1, ← ha2, ← hb2, ← hc2]
            exact ⟨p1, p2, p3, q1, q2, q3⟩

theorem searchRange_len {l y1 m1 d1 y2 m2 d2 : List Char}
    (h : searchRange l = some (y1, m1, d1, y2, m2, d2)) :
    y1.length = 4 ∧ (m1.length = 1 ∨ m1.length = 2) ∧ (d1.length = 1 ∨ d1.length = 2)
    ∧ y2.length = 4 ∧ (m2.length = 1 ∨ m2.length = 2) ∧ (d2.length = 1 ∨ d2.length = 2) := by
  induction l with
  | nil => cases h
  | cons c rest ih =>
      unfold searchRange at h
      cases hm : matchRangeAt (c :: rest) with
      | none => rw [hm] at h; exact ih h
      | some v =>
          rw [hm] at h
          injection h with h
          rw [h] at hm
          exact matchRangeAt_len hm

theorem zfill2_len {l : List Char} (h : l.length = 1 ∨ l.length = 2) :
    (zfill2 l).length = 2 := by
  unfold zfill2
  rcases h with h | h
  · rw [if_neg (by omega)]
    show (List.replicate (2 - l.length) '0' ++ l).length = 2
    rw [List.length_append, List.length_replicate]
    omega
  · rw [if_pos (by omega)]
    show l.length = 2
    exact h


/-- Claim C9: when the text contains the date-range pattern
`YYYY年MM月DD日(W) ～ YYYY年MM月DD日(W)`, the filename is
`YYYYMMDDtoYYYYMMDD.xlsx` with month and day zero-filled to 2 digits
(so the whole name has 23 characters); otherwise it is the fallback
`weekly_schedule_<today:%Y%m%d>.xlsx`; in particular the Scenario A
header yields `20250623to20250629.xlsx`. -/
theorem C9_thm :
    generate_filename ⟨2026, 10, 12⟩ "2025年06月23日(月) ～ 2025年06月29日(日)" =
        "20250623to20250629.xlsx"
    ∧ (∀ (today : Date) (text : String), searchRange text.toList = none →
        generate_filename today text =
          "weekly_schedule_" ++ padNat 4 today.year ++ padNat 2 today.month ++
            padNat 2 today.day ++ ".xlsx")
    ∧ (∀ (today : Date) (text : String) (y1 m1 d1 y2 m2 d2 : List Char),
        searchRange text.toList = some (y1, m1, d1, y2, m2, d2) →
        generate_filename today text =
          String.mk y1 ++ zfill2 m1 ++ zfill2 d1 ++ "to" ++
            String.mk y2 ++ zfill2 m2 ++ zfill2 d2 ++ ".xlsx"
        ∧ (String.mk y1).length = 4 ∧ (zfill2 m1).length = 2 ∧ (zfill2 d1).length = 2
        ∧ (String.mk y2).length = 4 ∧ (zfill2 m2).length = 2 ∧ (zfill2 d2).length = 2) := by
  refine ⟨by rfl, ?_, ?_⟩
  · intro today text hnone
    unfold generate_filename
    rw [hnone]
    rfl
  · intro today text y1 m1 d1 y2 m2 d2 hsome
    obtain ⟨p1, p2, p3, p4, p5, p6⟩ := searchRange_len hsome
    constructor
    · unfold generate_filename
      rw [hsome]
    · exact ⟨p1, zfill2_len p2, zfill2_len p3, p4, zfill2_len p5, zfill2_len p6⟩

theorem C9_thm_witness :
    generate_filename ⟨2026, 10, 12⟩ "スケジュール" =
        "weekly_schedule_" ++ padNat 4 2026 ++ padNat 2 10 ++ padNat 2 12 ++ ".xlsx"
    ∧ (generate_filename ⟨2026, 10, 12⟩ "2025年6月3日(火) ～ 2025年6月9日(月)" =
          String.mk "2025".toList ++ zfill2 "6".toList ++ zfill2 "3".toList ++ "to" ++
            String.mk "2025".toList ++ zfill2 "6".toList ++ zfill2 "9".toList ++ ".xlsx"
        ∧ (String.mk "2025".toList).length = 4 ∧ (zfill2 "6".toList).length = 2
        ∧ (zfill2 "3".toList).length = 2 ∧ (String.mk "2025".toList).length = 4
        ∧ (zfill2 "6".toList).length = 2 ∧ (zfill2 "9".toList).length = 2) :=
  ⟨C9_thm.2.1 ⟨2026, 10, 12⟩ "スケジュール" rfl,
   C9_thm.2.2 ⟨2026, 10, 12⟩ "2025年6月3日(火) ～ 2025年6月9日(月)"
     "2025".toList "6".toList "3".toList "2025".toList "6".toList "9".toList rfl⟩

/-! ## Claim C1 — the sort relation and the capped placement loop -/

theorem lexLe_total : ∀ a b : List Char, lexLe a b = true ∨ lexLe b a = true
  | [], _ => Or.inl rfl
  | _ :: _, [] => Or.inr rfl
  | a :: as, b :: bs => by
      by_cases h1 : a.val.toNat < b.val.toNat
      · left; simp [lexLe, h1]
      · by_cases h2 : b.val.toNat < a.val.toNat
        · right; simp [lexLe, h2, h1]
        · rcases lexLe_total as bs with h | h
          · left; simp [lexLe, h1, h2, h]
          · right; simp [lexLe, h2, h1, h]

theorem lexLe_trans : ∀ a b c : List Char,
    lexLe a b = true → lexLe b c = true → lexLe a c = true
  | [], _, _ => fun _ _ => rfl
  | _ :: _, [], _ => fun h _ => by cases h
  | _ :: _, _ :: _, [] => fun _ h => by cases h
  | a :: as, b :: bs, c :: cs => by
      intro hab hbc
      simp only [lexLe] at hab hbc ⊢
      by_cases h1 : a.val.toNat < b.val.toNat
      · by_cases h2 : b.val.toNat < c.val.toNat
        · rw [if_pos (by omega : a.val.toNat < c.val.toNat)]
        · rw [if_neg h2] at hbc
          by_cases h3 : c.val.toNat < b.val.toNat
          · rw [if_pos h3] at hbc; cases hbc
          · rw [if_pos (by omega : a.val.toNat < c.val.toNat)]
      · rw [if_neg h1] at hab
        by_cases h4 : b.val.toNat < a.val.toNat
        · rw [if_pos h4] at hab; cases hab
        · rw [if_neg h4] at hab
          by_cases h2 : b.val.toNat < c.val.toNat
          · rw [if_pos (by omega : a.val.toNat < c.val.toNat)]
          · rw [if_neg h2] at hbc
            by_cases h3 : c.val.toNat < b.val.toNat
            · rw [if_pos h3] at hbc; cases hbc
            · rw [if_neg h3] at hbc
              rw [if_neg (by omega : ¬a.val.toNat < c.val.toNat),
                if_neg (by omega : ¬c.val.toNat < a.val.toNat)]
              exact lexLe_trans as bs cs hab hbc

theorem keyLe_total : ∀ k1 k2 : Bool × List Char, keyLe k1 k2 = true ∨ keyLe k2 k1 = true
  | (b1, s1), (b2, s2) => by
      by_cases hb : b1 = b2
      · subst hb
        simp only [keyLe, if_pos rfl]
        exact lexLe_total s1 s2
      · simp only [keyLe, if_neg hb, if_neg (Ne.symm hb)]
        cases b1 <;> cases b2 <;> simp_all

theorem keyLe_trans : ∀ k1 k2 k3 : Bool × List Char,
    keyLe k1 k2 = true → keyLe k2 k3 = true → keyLe k1 k3 = true
  | (b1, s1), (b2, s2), (b3, s3) => by
      intro h12 h23
      cases b1 <;> cases b2 <;> cases b3 <;>
        simp only [keyLe, if_pos rfl, if_neg (by decide : (false : Bool) ≠ true),
          if_neg (by decide : (true : Bool) ≠ false), Bool.not_false, Bool.not_true,
          Bool.true_and, Bool.false_and, Bool.and_true, Bool.and_false] at h12 h23 ⊢ <;>
        first
        | rfl
        | exact absurd h12 (by decide)
        | exact absurd h23 (by decide)
        | exact lexLe_trans _ _ _ h12 h23

instance : IsTotal Entry pyLeP := ⟨fun a b => keyLe_total (sortKey a) (sortKey b)⟩

instance : IsTrans Entry pyLeP :=
  ⟨fun _ _ _ h1 h2 => keyLe_trans _ _ _ h1 h2⟩

theorem except_bind_eq {α β : Type} (x : Except String α) (f g : α → Except String β)
    (h : ∀ a, x = .ok a → f a = g a) : (x >>= f) = (x >>= g) := by
  cases x with
  | error e => rfl
  | ok a => exact h a rfl

/-- The per-day loop with its 6-row break places exactly the first
`6 - j` entries when started at offset `j`. -/
theorem placeEntries_take (start : Nat) : ∀ (l : List Entry) (j : Nat), j < 6 →
    placeEntries start (start + j) l = placeAll (start + j) (l.take (6 - j))
  | [], j, _ => by simp [placeEntries, placeAll]
  | e :: es, j, h => by
      rw [placeEntries]
      rw [show 6 - j = (5 - j) + 1 from by omega, List.take_succ_cons]
      show (entryInstrs (start + j) e >>= fun c =>
          if start + j + 1 ≥ start + 6 then Except.ok c
          else placeEntries start (start + j + 1) es >>= fun t => Except.ok (c ++ t)) =
        (entryInstrs (start + j) e >>= fun c =>
          placeAll (start + j + 1) (es.take (5 - j)) >>= fun t => Except.ok (c ++ t))
      apply except_bind_eq
      intro c _
      by_cases hj : j = 5
      · subst hj
        rw [if_pos (by omega : start + 5 + 1 ≥ start + 6)]
        rw [show (5 : Nat) - 5 = 0 from rfl, List.take_zero]
        show Except.ok c = placeAll (start + 5 + 1) [] >>= fun t => Except.ok (c ++ t)
        show Except.ok c = Except.ok (c ++ [])
        rw [List.append_nil]
      · rw [if_neg (by omega : ¬start + j + 1 ≥ start + 6)]
        have ih := placeEntries_take start es (j + 1) (by omega)
        rw [show 6 - (j + 1) = 5 - j from by omega] at ih
        have ih2 : placeEntries start (start + j + 1) es =
            placeAll (start + j + 1) (List.take (5 - j) es) := ih
        rw [ih2]


/-- Claim C1 (amended): for every day index, the engine's entry
instructions are exactly the unbounded row-by-row placement of the first
`min(N, 6)` records of the day's bucket sorted by the code's key —
`(not has_all_data, time string or '99:99')` under lexicographic string
comparison — one record per row from the block's first row, with no error
contributed by dropped overflow records; the sorted list is a permutation
of the bucket and is sorted for that key.  (The claim's original
"time ascending, timeless last" reading fails: the key compares strings,
see the counterexample.) -/
theorem C1_amended (sched : List Entry) (start : Date) (d : Nat) :
    dayInstrs sched start d =
      (fun es => col1Instrs (start.addDays d) (7 + 6 * d) ++ es) <$>
        placeAll (7 + 6 * d) ((sortEntries (bucketOf sched (start.addDays d))).take 6)
    ∧ (sortEntries (bucketOf sched (start.addDays d))).Perm (bucketOf sched (start.addDays d))
    ∧ List.Sorted pyLeP (sortEntries (bucketOf sched (start.addDays d))) := by
  refine ⟨?_, List.perm_insertionSort _ _, List.sorted_insertionSort _ _⟩
  show (do
      let es ← placeEntries (7 + 6 * d) (7 + 6 * d)
        (sortEntries (bucketOf sched (start.addDays d)))
      Except.ok (col1Instrs (start.addDays d) (7 + 6 * d) ++ es)) = _
  have h := placeEntries_take (7 + 6 * d) (sortEntries (bucketOf sched (start.addDays d))) 0
    (by omega)
  rw [Nat.add_zero] at h
  rw [show (6 - 0) = 6 from rfl] at h
  rw [h]
  cases hp : placeAll (7 + 6 * d) ((sortEntries (bucketOf sched (start.addDays d))).take 6) with
  | error msg => rfl
  | ok l => rfl

/-! ## Claim C7 — date labels for all 7 days; empty days get no entries -/

theorem entryInstrs_ok (r : Nat) (e : Entry) (h : timeOk e.time = true) :
    ∃ c, entryInstrs r e = .ok c := by
  unfold timeOk at h
  by_cases he : e.time = ""
  · refine ⟨[(r, 2, .s ""), (r, 3, .s (cleanB e.location)), (r, 4, .s (cleanB e.activity))], ?_⟩
    unfold entryInstrs
    rw [if_neg (by simp [he])]
  · rw [Bool.or_eq_true] at h
    rcases h with h | h
    · exact absurd (by simpa using h) he
    · cases ht : toTimeCell e.time with
      | error msg => rw [ht] at h; cases h
      | ok v =>
          refine ⟨[(r, 2, v), (r, 3, .s (cleanB e.location)), (r, 4, .s (cleanB e.activity))], ?_⟩
          unfold entryInstrs
          rw [if_pos he, ht]
          rfl

theorem placeEntries_ok (s : Nat) : ∀ (l : List Entry) (r : Nat),
    (∀ x ∈ l, timeOk x.time = true) → ∃ t, placeEntries s r l = .ok t
  | [], _, _ => ⟨[], rfl⟩
  | e :: es, r, h => by
      obtain ⟨c, hc⟩ := entryInstrs_ok r e (h e (by simp))
      by_cases hbreak : r + 1 ≥ s + 6
      · refine ⟨c, ?_⟩
        rw [placeEntries, hc]
        show (if r + 1 ≥ s + 6 then Except.ok c
            else placeEntries s (r + 1) es >>= fun t => Except.ok (c ++ t)) = Except.ok c
        rw [if_pos hbreak]
      · obtain ⟨t, ht⟩ := placeEntries_ok s es (r + 1) (fun x hx => h x (by simp [hx]))
        refine ⟨c ++ t, ?_⟩
        rw [placeEntries, hc]
        show (if r + 1 ≥ s + 6 then Except.ok c
            else placeEntries s (r + 1) es >>= fun t => Except.ok (c ++ t)) = Except.ok (c ++ t)
        rw [if_neg hbreak, ht]
        rfl

theorem mem_of_mem_sortBucket {x : Entry} {sched : List Entry} {dt : Date}
    (hx : x ∈ sortEntries (bucketOf sched dt)) : x ∈ sched :=
  (List.mem_filter.mp
    (((List.perm_insertionSort pyLeP (bucketOf sched dt)).mem_iff).mp hx)).1

theorem dayInstrs_ok (sched : List Entry) (start : Date) (d : Nat)
    (hwf : ∀ x ∈ sched, timeOk x.time = true) :
    ∃ es, dayInstrs sched start d =
      .ok (col1Instrs (start.addDays d) (7 + 6 * d) ++ es) := by
  obtain ⟨t, ht⟩ := placeEntries_ok (7 + 6 * d)
    (sortEntries (bucketOf sched (start.addDays d))) (7 + 6 * d)
    (fun x hx => hwf x (mem_of_mem_sortBucket hx))
  refine ⟨t, ?_⟩
  show (do
      let es ← placeEntries (7 + 6 * d) (7 + 6 * d)
        (sortEntries (bucketOf sched (start.addDays d)))
      Except.ok (col1Instrs (start.addDays d) (7 + 6 * d) ++ es)) = _
  rw [ht]
  rfl

theorem mapM_ok_mem {f : Nat → Except String (List Instr)} : ∀ (l : List Nat),
    (∀ x ∈ l, ∃ b, f x = .ok b) →
    ∃ bs, l.mapM f = .ok bs ∧ ∀ x ∈ l, ∀ b, f x = .ok b → b ∈ bs
  | [], _ => ⟨[], rfl, by simp⟩
  | x :: l, h => by
      obtain ⟨b, hb⟩ := h x (by simp)
      obtain ⟨bs, hbs, hmem⟩ := mapM_ok_mem l (fun y hy => h y (by simp [hy]))
      refine ⟨b :: bs, ?_, ?_⟩
      · rw [List.mapM_cons, hb, hbs]
        rfl
      · intro y hy b' hb'
        rcases List.mem_cons.mp hy with rfl | hy2
        · rw [hb'] at hb
          injection hb with hb
          simp [hb]
        · exact List.mem_cons_of_mem _ (hmem y hy2 b' hb')

/-- Claim C7: for a non-empty record set, every one of the 7 consecutive
days from the minimum record date receives its column-1 date-label
writes — offset 0 the weekday name in ASCII parentheses, offset 1 the
formatted date, offsets 2-5 explicit empty strings — whether or not any
records fall on it; a day with an empty bucket contributes exactly the
column-1 block, so it receives no column 2-4 instructions. -/
theorem C7_thm (e : Entry) (rest : List Entry)
    (hwf : ∀ x ∈ e :: rest, timeOk x.time = true) :
    ∃ instrs, create_excel_file (e :: rest) = .ok instrs
      ∧ ∀ d, d < 7 →
        (((7 + 6 * d, 1, CellValue.s ("(" ++ dayName ((startDate e rest).addDays d) ++ ")")) ∈ instrs
          ∧ (7 + 6 * d + 1, 1, CellValue.s (fmtSlash ((startDate e rest).addDays d))) ∈ instrs
          ∧ (7 + 6 * d + 2, 1, CellValue.s "") ∈ instrs
          ∧ (7 + 6 * d + 3, 1, CellValue.s "") ∈ instrs
          ∧ (7 + 6 * d + 4, 1, CellValue.s "") ∈ instrs
          ∧ (7 + 6 * d + 5, 1, CellValue.s "") ∈ instrs)
        ∧ (bucketOf (e :: rest) ((startDate e rest).addDays d) = [] →
            dayInstrs (e :: rest) (startDate e rest) d =
              .ok (col1Instrs ((startDate e rest).addDays d) (7 + 6 * d)))) := by
  have hday : ∀ x ∈ List.range 7, ∃ b, dayInstrs (e :: rest) (startDate e rest) x = .ok b := by
    intro x _
    obtain ⟨es, hes⟩ := dayInstrs_ok (e :: rest) (startDate e rest) x hwf
    exact ⟨_, hes⟩
  obtain ⟨bs, hbs, hmem⟩ := mapM_ok_mem (List.range 7) hday
  refine ⟨bs.flatten, ?_, ?_⟩
  · show (do
        let blocks ← (List.range 7).mapM (dayInstrs (e :: rest) (startDate e rest))
        Except.ok blocks.flatten) = _
    rw [hbs]
    rfl
  · intro d hd
    obtain ⟨es, hes⟩ := dayInstrs_ok (e :: rest) (startDate e rest) d hwf
    have hblock : col1Instrs ((startDate e rest).addDays d) (7 + 6 * d) ++ es ∈ bs :=
      hmem d (List.mem_range.mpr hd) _ hes
    have hin : ∀ i ∈ col1Instrs ((startDate e rest).addDays d) (7 + 6 * d), i ∈ bs.flatten := by
      intro i hi
      exact List.mem_flatten.mpr ⟨_, hblock, List.mem_append_left _ hi⟩
    refine ⟨⟨hin _ (by simp [col1Instrs]), hin _ (by simp [col1Instrs]),
      hin _ (by simp [col1Instrs]), hin _ (by simp [col1Instrs]),
      hin _ (by simp [col1Instrs]), hin _ (by simp [col1Instrs])⟩, ?_⟩
    intro hb
    show (do
        let es ← placeEntries (7 + 6 * d) (7 + 6 * d)
          (sortEntries (bucketOf (e :: rest) ((startDate e rest).addDays d)))
        Except.ok (col1Instrs ((startDate e rest).addDays d) (7 + 6 * d) ++ es)) = _
    rw [hb]
    show Except.ok (col1Instrs ((startDate e rest).addDays d) (7 + 6 * d) ++ ([] : List Instr)) = _
    rw [List.append_nil]

theorem C7_thm_witness :
    (∀ x ∈ [(⟨"23(月)", ⟨2025, 6, 23⟩, "08:50", "川口本部", "", true⟩ : Entry)],
        timeOk x.time = true)
    ∧ ∃ instrs,
        create_excel_file [(⟨"23(月)", ⟨2025, 6, 23⟩, "08:50", "川口本部", "", true⟩ : Entry)] =
          .ok instrs
      ∧ ∀ d, d < 7 →
        (((7 + 6 * d, 1, CellValue.s ("(" ++
            dayName ((startDate ⟨"23(月)", ⟨2025, 6, 23⟩, "08:50", "川口本部", "", true⟩ []).addDays d)
            ++ ")")) ∈ instrs
          ∧ (7 + 6 * d + 1, 1, CellValue.s
              (fmtSlash ((startDate ⟨"23(月)", ⟨2025, 6, 23⟩, "08:50", "川口本部", "", true⟩ []).addDays d))) ∈ instrs
          ∧ (7 + 6 * d + 2, 1, CellValue.s "") ∈ instrs
          ∧ (7 + 6 * d + 3, 1, CellValue.s "") ∈ instrs
          ∧ (7 + 6 * d + 4, 1, CellValue.s "") ∈ instrs
          ∧ (7 + 6 * d + 5, 1, CellValue.s "") ∈ instrs)
        ∧ (bucketOf [(⟨"23(月)", ⟨2025, 6, 23⟩, "08:50", "川口本部", "", true⟩ : Entry)]
              ((startDate ⟨"23(月)", ⟨2025, 6, 23⟩, "08:50", "川口本部", "", true⟩ []).addDays d) = [] →
            dayInstrs [(⟨"23(月)", ⟨2025, 6, 23⟩, "08:50", "川口本部", "", true⟩ : Entry)]
                (startDate ⟨"23(月)", ⟨2025, 6, 23⟩, "08:50", "川口本部", "", true⟩ []) d =
              .ok (col1Instrs
                ((startDate ⟨"23(月)", ⟨2025, 6, 23⟩, "08:50", "川口本部", "", true⟩ []).addDays d)
                (7 + 6 * d)))) :=
  ⟨by decide, C7_thm ⟨"23(月)", ⟨2025, 6, 23⟩, "08:50", "川口本部", "", true⟩ [] (by decide)⟩

end S2E
